import Mathlib

/-!
Verification of the zialiel.protocol core against its specification.

This file shallowly embeds the consensus-and-ledger pipeline of the
repository in Lean 4:

* `zialiel/economics/fee_model.py` (`FeeModel.get_fee_breakdown`),
* `zialiel/ledger/state.py` (`LedgerState.apply_transaction`,
  `LedgerState.distribute_fee`, `LedgerState.credit`),
* `zialiel/crypto_core/vertex.py` (`Vertex`, `SuperVertex`, the Merkle
  root computation),
* `zialiel/crypto_core/dag.py` (`DAG.add_vertex`, `DAG._update_tips`),
* `zialiel/crypto_core/consensus.py` (`QDBFT.cast_vote`,
  `QDBFT._check_for_finality`),
* `zialiel/node.py` (`Node.process_finalized_super_vertex`).

Python integers are arbitrary precision and are modelled as `Int`
(or `Nat` where the source value is a length).  The external SHA-256
primitive (`hashlib.sha256(...).hexdigest()`) is modelled as an
explicit function parameter `H : String → String`: every property
claimed of the code holds for the digest computation uniformly in the
underlying hash primitive, and the bug exposed below (the vertex digest
is a constant) is independent of it.  The post-quantum signature
capability (`sign`/`verify`) is likewise an explicit parameter, as the
spec treats it as an opaque external capability.

Fee shares are computed in the source as `int(total_fee * 0.6)` etc. —
a float product truncated toward zero.  For every nonnegative
`total_fee` below `2 ^ 52` (far beyond any realistic fee) that value
coincides with exact floor division, which is how the shares are
embedded here; the same applies to the quorum threshold
`int(len(committee) * 2 / 3) + 1`, embedded as `2 * N / 3 + 1` in `Nat`.
-/

/-! ## Fee model: `FeeModel.get_fee_breakdown` (`zialiel/economics/fee_model.py`) -/

/-- Result dictionary of `FeeModel.get_fee_breakdown`: the four named
shares of a transaction fee. -/
structure FeeBreakdown where
  validatorShare : Int
  ubiShare : Int
  carbonShare : Int
  gratitudeShare : Int
  deriving Repr, DecidableEq

/-- Embedding of `FeeModel.get_fee_breakdown(total_fee)`.  The source
returns the all-zero breakdown for `total_fee < 1`, otherwise floors
60/20/10/10 percent shares and adds the flooring remainder to the
validator share. -/
def getFeeBreakdown (totalFee : Int) : FeeBreakdown :=
  if totalFee < 1 then
    { validatorShare := 0, ubiShare := 0, carbonShare := 0, gratitudeShare := 0 }
  else
    let validatorShare := totalFee * 6 / 10
    let ubiShare := totalFee * 2 / 10
    let carbonShare := totalFee / 10
    let gratitudeShare := totalFee / 10
    let currentTotal := validatorShare + ubiShare + carbonShare + gratitudeShare
    let remainder := totalFee - currentTotal
    { validatorShare := validatorShare + remainder
      ubiShare := ubiShare
      carbonShare := carbonShare
      gratitudeShare := gratitudeShare }

/-- Sum of the four shares of a breakdown. -/
def FeeBreakdown.total (fb : FeeBreakdown) : Int :=
  fb.validatorShare + fb.ubiShare + fb.carbonShare + fb.gratitudeShare

/-! ## Ledger: `LedgerState` (`zialiel/ledger/state.py`) -/

/-- Embedding of `LedgerState`: account balances (a `defaultdict(int)`,
modelled as a total function with default `0`) and the four fee pools. -/
structure LedgerState where
  balances : String → Int
  ubiSharePool : Int
  validatorSharePool : Int
  carbonSharePool : Int
  gratitudeSharePool : Int

/-- Fresh `LedgerState()`: empty balances, all pools zero. -/
def LedgerState.init : LedgerState :=
  { balances := fun _ => 0
    ubiSharePool := 0
    validatorSharePool := 0
    carbonSharePool := 0
    gratitudeSharePool := 0 }

/-- Embedding of `LedgerState.apply_transaction(sender, recipient,
amount, fee)`.  Computes `total_debit = amount + fee`; fails without
mutation when `balances[sender] < total_debit`; otherwise debits the
sender by the total and credits the recipient by the amount, exactly in
the source order (`balances[sender] -= total_debit` then
`balances[recipient] += amount`). -/
def LedgerState.applyTransaction (st : LedgerState) (sender recipient : String)
    (amount fee : Int) : LedgerState × Bool :=
  let totalDebit := amount + fee
  if st.balances sender < totalDebit then (st, false)
  else
    let b1 := Function.update st.balances sender (st.balances sender - totalDebit)
    let b2 := Function.update b1 recipient (b1 recipient + amount)
    ({ st with balances := b2 }, true)

/-- Embedding of `LedgerState.distribute_fee(fee_breakdown)`: each pool
is credited with its share from the breakdown dictionary. -/
def LedgerState.distributeFee (st : LedgerState) (fb : FeeBreakdown) : LedgerState :=
  { st with
    validatorSharePool := st.validatorSharePool + fb.validatorShare
    ubiSharePool := st.ubiSharePool + fb.ubiShare
    carbonSharePool := st.carbonSharePool + fb.carbonShare
    gratitudeSharePool := st.gratitudeSharePool + fb.gratitudeShare }

/-- Embedding of `LedgerState.credit(address, amount)`: a negative
amount is rejected as a no-op, otherwise the address is credited. -/
def LedgerState.credit (st : LedgerState) (address : String) (amount : Int) : LedgerState :=
  if amount < 0 then st
  else { st with balances := Function.update st.balances address (st.balances address + amount) }

/-- Sum of the four fee pools of a ledger state. -/
def LedgerState.poolsTotal (st : LedgerState) : Int :=
  st.validatorSharePool + st.ubiSharePool + st.carbonSharePool + st.gratitudeSharePool

/-- Sum of the balances of a finite set of accounts. -/
def LedgerState.balancesTotal (st : LedgerState) (accounts : Finset String) : Int :=
  ∑ a ∈ accounts, st.balances a

/-! ## Transactions (`zialiel/crypto_core/transactions.py`) -/

/-- Embedding of the `Transaction` dataclass: sender, recipient,
integer amount and fee, unique id, creation timestamp, signature. -/
structure Transaction where
  sender : String
  recipient : String
  amount : Int
  fee : Int
  id : String
  timestamp : Int
  signature : String
  deriving Repr, DecidableEq

/-- Embedding of `Transaction.to_message`: the canonical signable
encoding of all fields except the signature.  The source serialises the
field dictionary with `json.dumps(..., sort_keys=True)`; this model
renders the same fields in the same sorted key order. -/
def Transaction.toMessage (tx : Transaction) : String :=
  "amount=" ++ toString tx.amount ++ ";fee=" ++ toString tx.fee ++ ";id=" ++ tx.id
    ++ ";recipient=" ++ tx.recipient ++ ";sender=" ++ tx.sender
    ++ ";timestamp=" ++ toString tx.timestamp

/-- Embedding of `Transaction.calculate_hash`: the hash of the signable
message, with the SHA-256 primitive abstracted as `H`. -/
def Transaction.calculateHash (H : String → String) (tx : Transaction) : String :=
  H tx.toMessage

/-! ## Vertices and checkpoints (`zialiel/crypto_core/vertex.py`) -/

/-- Text hashed by `Vertex.calculate_hash`.  In the source the
`block_string` is built from an f-string whose only braces are the
escaped pair `\x7b\x7b`…`\x7d\x7d`; nothing is interpolated, so the
hashed text is this fixed literal, identical for every vertex. -/
def vertexBlockString : String :=
  "\x7b\x27transactions\x27: [tx.calculate_hash() for tx in self.transactions], \x27parents\x27: self.parent_hashes, \x27creator\x27: self.creator_id, \x27timestamp\x27: self.timestamp\x7d"

/-- Embedding of the `Vertex` dataclass: a batch of transactions with
parent links, creator, timestamp, signature, and its digest (set by
`__post_init__` from `calculate_hash`). -/
structure Vertex where
  transactions : List Transaction
  parentHashes : List String
  creatorId : String
  timestamp : Int
  signature : String
  hash : String
  deriving Repr, DecidableEq

/-- Embedding of `Vertex.calculate_hash`: the hash primitive applied to
`block_string`.  Because the source f-string interpolates nothing (see
`vertexBlockString`), the result does not depend on the vertex. -/
def Vertex.calculateHash (H : String → String) (_v : Vertex) : String :=
  H vertexBlockString

/-- Construction of a `Vertex` as `__post_init__` performs it: the
fields are stored and `hash` is set to `calculate_hash()`. -/
def mkVertex (H : String → String) (transactions : List Transaction)
    (parentHashes : List String) (creatorId : String) (timestamp : Int) : Vertex :=
  let v0 : Vertex :=
    { transactions := transactions, parentHashes := parentHashes, creatorId := creatorId
      timestamp := timestamp, signature := "", hash := "" }
  { v0 with hash := Vertex.calculateHash H v0 }

/-- One pairing pass of `SuperVertex._calculate_merkle_root`: the source
first duplicates the last element when the level has odd length, then
hashes the concatenation of each adjacent pair.  Duplication only ever
affects the final element, which is what the single-element case below
performs. -/
def merklePairUp (H : String → String) : List String → List String
  | [] => []
  | [a] => [H (a ++ a)]
  | a :: b :: rest => H (a ++ b) :: merklePairUp H rest

theorem merklePairUp_length (H : String → String) (l : List String) :
    (merklePairUp H l).length = (l.length + 1) / 2 := by
  match l with
  | [] => simp [merklePairUp]
  | [a] => simp [merklePairUp]
  | a :: b :: rest =>
    simp only [merklePairUp, List.length_cons]
    rw [merklePairUp_length H rest]
    omega

/-- Driving loop of `SuperVertex._calculate_merkle_root`: pair up levels
while more than one node remains, then return the root. -/
def merkleRootAux (H : String → String) (l : List String) : String :=
  if l.length ≤ 1 then l.headD ""
  else merkleRootAux H (merklePairUp H l)
termination_by l.length
decreasing_by
  simp only [merklePairUp_length]
  omega

/-- Embedding of `SuperVertex._calculate_merkle_root(items)`: the empty
list maps to the hash of the empty byte string; otherwise every item is
hashed and the levels are paired up bottom-up. -/
def calculateMerkleRoot (H : String → String) (items : List String) : String :=
  if items.isEmpty then H ""
  else merkleRootAux H (items.map H)

/-- Text hashed by `SuperVertex.calculate_hash`.  Built from the same
escaped-brace f-string pattern as `vertexBlockString`: nothing is
interpolated and the literal is the same for every super-vertex. -/
def superVertexBlockString : String :=
  "\x7b\x27parent\x27: self.parent_super_vertex_hash, \x27creator\x27: self.creator_id, \x27timestamp\x27: self.timestamp, \x27tx_root\x27: self.transaction_merkle_root, \x27struct_root\x27: self.structure_merkle_root\x7d"

/-- Embedding of the `SuperVertex` dataclass: a checkpoint over a
cohort of vertex digests with dual Merkle roots. -/
structure SuperVertex where
  cohortHashes : List String
  parentSuperVertexHash : String
  creatorId : String
  timestamp : Int
  transactionMerkleRoot : String
  structureMerkleRoot : String
  hash : String
  signature : String
  deriving Repr, DecidableEq

/-- Embedding of `SuperVertex.calculate_hash`: like the vertex case,
the source f-string interpolates nothing, so the digest does not depend
on the super-vertex. -/
def SuperVertex.calculateHash (H : String → String) (_sv : SuperVertex) : String :=
  H superVertexBlockString

/-- Construction of a `SuperVertex` as `__post_init__` performs it:
both Merkle roots are computed from the cohort-hash list and `hash` is
set from `calculate_hash()`. -/
def mkSuperVertex (H : String → String) (cohortHashes : List String)
    (parentSuperVertexHash creatorId : String) (timestamp : Int) : SuperVertex :=
  let root := calculateMerkleRoot H cohortHashes
  let sv0 : SuperVertex :=
    { cohortHashes := cohortHashes, parentSuperVertexHash := parentSuperVertexHash
      creatorId := creatorId, timestamp := timestamp
      transactionMerkleRoot := root, structureMerkleRoot := root
      hash := "", signature := "" }
  { sv0 with hash := SuperVertex.calculateHash H sv0 }

/-! ## The DAG store (`zialiel/crypto_core/dag.py`) -/

/-- Embedding of the `DAG` class: the vertex table, the super-vertex
table (both keyed by digest; modelled as lists since every admission is
guarded by a duplicate check) and the tips set. -/
structure DAG where
  vertices : List Vertex
  superVertices : List SuperVertex
  tips : Finset String

/-- Fresh `DAG()` with empty tables and tip set. -/
def DAG.empty : DAG :=
  { vertices := [], superVertices := [], tips := ∅ }

/-- Embedding of `DAG._update_tips(new_vertex)`: each declared parent is
removed from the tips when present, then the vertex digest is added. -/
def updateTips (tips : Finset String) (v : Vertex) : Finset String :=
  insert v.hash (v.parentHashes.foldl (fun t p => t.erase p) tips)

/-- Mutation performed by the success path of `DAG.add_vertex`: the
vertex is stored in the table and `_update_tips` runs. -/
def DAG.storeVertex (d : DAG) (v : Vertex) : DAG :=
  { d with vertices := d.vertices ++ [v], tips := updateTips d.tips v }

/-- Embedding of `DAG.add_vertex(vertex)`: rejects a duplicate digest;
rejects when any declared parent other than the literal `genesis`
sentinel is not stored; otherwise stores the vertex and updates tips. -/
def DAG.addVertex (d : DAG) (v : Vertex) : DAG × Bool :=
  if d.vertices.any (fun w => w.hash == v.hash) then (d, false)
  else if v.parentHashes.all (fun p => p == "genesis" || d.vertices.any (fun w => w.hash == p)) then
    (d.storeVertex v, true)
  else (d, false)

/-- Embedding of `DAG.add_super_vertex(super_vertex)`: rejects a
duplicate digest, otherwise stores unconditionally. -/
def DAG.addSuperVertex (d : DAG) (sv : SuperVertex) : DAG × Bool :=
  if d.superVertices.any (fun w => w.hash == sv.hash) then (d, false)
  else ({ d with superVertices := d.superVertices ++ [sv] }, true)

/-- Embedding of `DAG.get_vertex(vertex_hash)`. -/
def DAG.getVertex (d : DAG) (h : String) : Option Vertex :=
  d.vertices.find? (fun v => v.hash == h)

/-- Digests of all stored vertices. -/
def DAG.storedHashes (d : DAG) : Finset String :=
  (d.vertices.map Vertex.hash).toFinset

/-- All digests declared as a parent by some stored vertex. -/
def DAG.declaredParents (d : DAG) : Finset String :=
  (d.vertices.flatMap Vertex.parentHashes).toFinset

/-! ## Finality engine (`zialiel/crypto_core/consensus.py`) -/

/-- Embedding of the QDBFT engine state: the per-digest pending vote
tallies (`pending_votes`, a dict of dicts keyed by digest then voter)
and the finalized set. -/
structure ConsensusState where
  pendingVotes : List (String × List (String × String))
  finalized : Finset String

/-- Fresh consensus state: no pending votes, nothing finalized. -/
def ConsensusState.init : ConsensusState :=
  { pendingVotes := [], finalized := ∅ }

/-- Lookup of `pending_votes.get(digest, dict())`: the recorded
voter-to-signature tally for a digest, empty when absent. -/
def getVotes (pv : List (String × List (String × String))) (digest : String) :
    List (String × String) :=
  match pv.find? (fun e => e.1 == digest) with
  | some e => e.2
  | none => []

/-- Dict assignment `votes[voter] = signature`: replaces the voter's
entry in place when present, otherwise appends it. -/
def setVote (votes : List (String × String)) (voter sig : String) :
    List (String × String) :=
  if votes.any (fun p => p.1 == voter) then
    votes.map (fun p => if p.1 == voter then (voter, sig) else p)
  else votes ++ [(voter, sig)]

/-- Dict assignment `pending_votes[digest] = votes`. -/
def setPending (pv : List (String × List (String × String))) (digest : String)
    (votes : List (String × String)) : List (String × List (String × String)) :=
  if pv.any (fun e => e.1 == digest) then
    pv.map (fun e => if e.1 == digest then (digest, votes) else e)
  else pv ++ [(digest, votes)]

/-- Dict deletion `del pending_votes[digest]`. -/
def delPending (pv : List (String × List (String × String))) (digest : String) :
    List (String × List (String × String)) :=
  pv.filter (fun e => !(e.1 == digest))

/-- Embedding of `QDBFT._check_for_finality(super_vertex_hash)`: reads
the current committee fresh, requires `int(len(committee) * 2 / 3) + 1`
distinct voters (exact floor division; the source float product agrees
for every feasible committee size), and on quorum inserts the digest
into the finalized set and deletes its pending tally. -/
def checkForFinality (committee : List String) (st : ConsensusState) (digest : String) :
    ConsensusState :=
  let votes := getVotes st.pendingVotes digest
  let requiredVotes := committee.length * 2 / 3 + 1
  if requiredVotes ≤ votes.length then
    { pendingVotes := delPending st.pendingVotes digest
      finalized := insert digest st.finalized }
  else st

/-- Embedding of `QDBFT.cast_vote(super_vertex_hash, private_key)` for a
node `nodeId`: rejected when the voter is not in the current committee;
a no-op when the digest is already finalized; otherwise the voter's
signature over the digest is recorded (overwriting any prior vote by
the same voter) and the finality check runs. -/
def castVote (sign : String → String → String) (committee : List String)
    (st : ConsensusState) (nodeId privateKey digest : String) : ConsensusState :=
  if nodeId ∈ committee then
    if digest ∈ st.finalized then st
    else
      let signature := sign privateKey digest
      let votes := setVote (getVotes st.pendingVotes digest) nodeId signature
      let st1 : ConsensusState := { st with pendingVotes := setPending st.pendingVotes digest votes }
      checkForFinality committee st1 digest
  else st

/-- Embedding of `QDBFT.propose_super_vertex`: a committee check, then
the proposal is the proposer's first vote on the super-vertex digest. -/
def proposeSuperVertex (sign : String → String → String) (committee : List String)
    (st : ConsensusState) (nodeId privateKey : String) (sv : SuperVertex) : ConsensusState :=
  if nodeId ∈ committee then castVote sign committee st nodeId privateKey sv.hash
  else st

/-! ## Node-level checkpoint application (`zialiel/node.py`) -/

/-- Per-transaction step of `Node.process_finalized_super_vertex`: on a
successful `apply_transaction`, the fee breakdown of the transaction fee
is distributed to the pools; a failed transfer changes nothing. -/
def applyAndDistribute (st : LedgerState) (sender recipient : String)
    (amount fee : Int) : LedgerState :=
  match st.applyTransaction sender recipient amount fee with
  | (st1, true) => st1.distributeFee (getFeeBreakdown fee)
  | (st1, false) => st1

/-- Embedding of `Node.process_finalized_super_vertex(super_vertex)`:
walks the cohort digests, skips any batch absent from the local DAG,
and for each transaction in stored order skips it when the sender's
public key is unknown (or falsy) or the signature fails verification,
otherwise applies the transfer and distributes the fee.  The external
signature capability is the parameter `verify`. -/
def processFinalizedSuperVertex (verify : String → String → String → Bool)
    (knownPeers : List (String × String)) (dag : DAG) (ledger : LedgerState)
    (sv : SuperVertex) : LedgerState :=
  sv.cohortHashes.foldl (fun st vertexHash =>
    match dag.getVertex vertexHash with
    | none => st
    | some v =>
      v.transactions.foldl (fun st tx =>
        match knownPeers.find? (fun p => p.1 == tx.sender) with
        | none => st
        | some peer =>
          if peer.2 == "" then st
          else if verify peer.2 tx.toMessage tx.signature then
            applyAndDistribute st tx.sender tx.recipient tx.amount tx.fee
          else st) st) ledger

/-- Combined per-node state: the consensus engine never touches the
ledger, which the wrapper below makes explicit. -/
structure NodeState where
  ledger : LedgerState
  consensus : ConsensusState

/-- Vote cast as a node performs it: only the consensus component is
involved; the ledger is not an input of the engine. -/
def nodeCastVote (sign : String → String → String) (committee : List String)
    (ns : NodeState) (nodeId privateKey digest : String) : NodeState :=
  { ns with consensus := castVote sign committee ns.consensus nodeId privateKey digest }

/-! ## Helper lemmas -/

theorem getFeeBreakdown_total_of_nonneg (fee : Int) (h : 0 ≤ fee) :
    (getFeeBreakdown fee).total = fee := by
  unfold getFeeBreakdown
  split_ifs with hlt
  · simp only [FeeBreakdown.total]
    omega
  · simp only [FeeBreakdown.total]
    ring

theorem applyTransaction_success_iff (st : LedgerState) (sender recipient : String)
    (amount fee : Int) :
    (st.applyTransaction sender recipient amount fee).2 = true ↔
      ¬ st.balances sender < amount + fee := by
  unfold LedgerState.applyTransaction
  by_cases h : st.balances sender < amount + fee
  · simp [h]
  · simp [h]

theorem applyTransaction_of_sufficient (st : LedgerState) (sender recipient : String)
    (amount fee : Int) (h : ¬ st.balances sender < amount + fee) :
    st.applyTransaction sender recipient amount fee =
      (let b1 := Function.update st.balances sender (st.balances sender - (amount + fee))
       ({ st with balances := Function.update b1 recipient (b1 recipient + amount) }, true)) := by
  unfold LedgerState.applyTransaction
  simp [h]

theorem sum_update_of_mem (f : String → Int) (S : Finset String) (a : String) (v : Int)
    (ha : a ∈ S) :
    ∑ x ∈ S, Function.update f a v x = (∑ x ∈ S, f x) + v - f a := by
  rw [Finset.sum_update_of_mem ha]
  have h1 : ∑ x ∈ S.erase a, f x + f a = ∑ x ∈ S, f x := Finset.sum_erase_add S f ha
  rw [Finset.sdiff_singleton_eq_erase]
  omega

/-! ## Claim theorems -/

/-- C4: for every integer `total_fee ≥ 1` the fee split produces the
integer floors of 60 %, 20 %, 10 % and 10 % of `total_fee` for the
validator, UBI, carbon and gratitude shares, with the flooring
remainder added entirely to the validator share, so the four shares sum
to exactly `total_fee`; for `total_fee < 1` all four shares are zero. -/
theorem fee_breakdown_split_and_conservation (n : Int) :
    (1 ≤ n →
      (getFeeBreakdown n).ubiShare = n * 20 / 100 ∧
      (getFeeBreakdown n).carbonShare = n * 10 / 100 ∧
      (getFeeBreakdown n).gratitudeShare = n * 10 / 100 ∧
      (getFeeBreakdown n).validatorShare =
        n * 60 / 100 + (n - (n * 60 / 100 + n * 20 / 100 + n * 10 / 100 + n * 10 / 100)) ∧
      (getFeeBreakdown n).total = n) ∧
    (n < 1 → getFeeBreakdown n =
      { validatorShare := 0, ubiShare := 0, carbonShare := 0, gratitudeShare := 0 }) := by
  constructor
  · intro h
    have hn : ¬ n < 1 := by omega
    refine ⟨?_, ?_, ?_, ?_, getFeeBreakdown_total_of_nonneg n (by omega)⟩ <;>
      simp only [getFeeBreakdown, if_neg hn] <;> omega
  · intro h
    simp [getFeeBreakdown, h]

/-- Witness for C4 at `total_fee = 7`: the shares are the floors
4/1/0/0, the remainder 2 goes to the validator, and the shares sum
to 7. -/
theorem fee_breakdown_split_and_conservation_witness :
    (getFeeBreakdown 7).ubiShare = 7 * 20 / 100 ∧ (getFeeBreakdown 7).total = 7 := by
  have h := (fee_breakdown_split_and_conservation 7).1 (by decide)
  exact ⟨h.1, h.2.2.2.2⟩

/-- C5 counterexample: the claim as stated fails when the sender and
the recipient are the same account.  With balance exactly
`amount + fee = 100 + 0`, a self-transfer succeeds and leaves the
sender at balance 100, not 0: the source debits and then credits the
same dictionary entry. -/
theorem apply_transaction_self_send_counterexample :
    ((LedgerState.init.credit "a" 100).applyTransaction "a" "a" 100 0).2 = true ∧
    (LedgerState.init.credit "a" 100).balances "a" = 100 + 0 ∧
    ((LedgerState.init.credit "a" 100).applyTransaction "a" "a" 100 0).1.balances "a" = 100 ∧
    ¬ ((LedgerState.init.credit "a" 100).applyTransaction "a" "a" 100 0).1.balances "a" = 0 := by
  refine ⟨?_, ?_, ?_, ?_⟩ <;> decide

/-- C5 (amended with `sender ≠ recipient`): `apply_transaction`
returns false and leaves every balance unchanged when the sender's
balance is below `amount + fee`; otherwise it succeeds, debits the
sender by exactly the total, credits the recipient by exactly the
amount and touches no other account; in particular a sender whose
balance is exactly `amount + fee` ends at 0 with the recipient's
balance increased by exactly the amount. -/
theorem apply_transaction_exactness (st : LedgerState) (sender recipient : String)
    (amount fee : Int) (hne : sender ≠ recipient) :
    (st.balances sender < amount + fee →
      st.applyTransaction sender recipient amount fee = (st, false)) ∧
    (¬ st.balances sender < amount + fee →
      (st.applyTransaction sender recipient amount fee).2 = true ∧
      (st.applyTransaction sender recipient amount fee).1.balances sender
        = st.balances sender - (amount + fee) ∧
      (st.applyTransaction sender recipient amount fee).1.balances recipient
        = st.balances recipient + amount ∧
      (∀ a, a ≠ sender → a ≠ recipient →
        (st.applyTransaction sender recipient amount fee).1.balances a = st.balances a)) ∧
    (st.balances sender = amount + fee →
      (st.applyTransaction sender recipient amount fee).1.balances sender = 0 ∧
      (st.applyTransaction sender recipient amount fee).1.balances recipient
        = st.balances recipient + amount) := by
  have hr : recipient ≠ sender := fun h => hne h.symm
  refine ⟨fun h => ?_, fun h => ?_, fun h => ?_⟩
  · simp [LedgerState.applyTransaction, h]
  · rw [applyTransaction_of_sufficient st sender recipient amount fee h]
    refine ⟨rfl, ?_, ?_, ?_⟩
    · simp [Function.update_apply, hne]
    · simp [Function.update_apply, hr]
    · intro a ha hb
      simp [Function.update_apply, ha, hb]
  · have hlt : ¬ st.balances sender < amount + fee := by omega
    rw [applyTransaction_of_sufficient st sender recipient amount fee hlt]
    constructor
    · simp [Function.update_apply, hne, h]
    · simp [Function.update_apply, hr]

/-- Witness for C5 at a sender with balance exactly `30 + 20`: the
transfer zeroes the sender and credits the recipient by 30. -/
theorem apply_transaction_exactness_witness :
    ((LedgerState.init.credit "s" 50).applyTransaction "s" "r" 30 20).1.balances "s" = 0 ∧
    ((LedgerState.init.credit "s" 50).applyTransaction "s" "r" 30 20).1.balances "r"
      = (LedgerState.init.credit "s" 50).balances "r" + 30 :=
  (apply_transaction_exactness (LedgerState.init.credit "s" 50) "s" "r" 30 20
    (by decide)).2.2 (by decide)

/-- C9: the Merkle-root computation over a cohort-digest list is a
deterministic function of the ordered list, and for a single-element
list the root is the hash of that element (the odd-level duplication
never fires because the loop requires at least two nodes). -/
theorem merkle_root_deterministic_singleton (H : String → String) (l1 l2 : List String)
    (h : l1 = l2) :
    calculateMerkleRoot H l1 = calculateMerkleRoot H l2 ∧
    ∀ x, calculateMerkleRoot H [x] = H x := by
  subst h
  refine ⟨rfl, fun x => ?_⟩
  rw [calculateMerkleRoot]
  simp [merkleRootAux]

/-- Witness for C9: with a concrete stand-in hash, the root of the
repeated list `["x", "y"]` is reproducible and the singleton list
`["z"]` hashes to the element's hash. -/
theorem merkle_root_deterministic_singleton_witness :
    calculateMerkleRoot (fun s => String.append "#" s) ["x", "y"]
      = calculateMerkleRoot (fun s => String.append "#" s) ["x", "y"] ∧
    calculateMerkleRoot (fun s => String.append "#" s) ["z"] = String.append "#" "z" := by
  have h := merkle_root_deterministic_singleton (fun s => String.append "#" s)
    ["x", "y"] ["x", "y"] rfl
  exact ⟨h.1, h.2 "z"⟩

/-- C2 (code bug): the vertex digest is NOT a function of the batch
content.  `Vertex.calculate_hash` hashes `vertexBlockString`, a fixed
literal (the source f-string escapes its braces and interpolates
nothing), so any two vertices — here two differing in transactions,
parents, creator and timestamp — receive the same digest under any
hash primitive, and the digest cannot serve as a batch identity key. -/
theorem vertex_digest_ignores_content (H : String → String) (v1 v2 : Vertex) :
    Vertex.calculateHash H v1 = Vertex.calculateHash H v2 ∧
    Vertex.calculateHash H v1 = H vertexBlockString ∧
    (mkVertex H [] ["genesis"] "alice" 0).hash = (mkVertex H [] ["p1"] "bob" 1).hash :=
  ⟨rfl, rfl, rfl⟩

set_option maxRecDepth 8192 in
/-- C8 counterexample: a batch with an empty declared-parent list is
admitted, not rejected: `add_vertex` returns true and stores it (the
parent-existence loop has nothing to check). -/
theorem empty_parent_batch_admitted_counterexample :
    (DAG.empty.addVertex (mkVertex (fun s => String.append "#" s) [] [] "a" 0)).2 = true ∧
    (DAG.empty.addVertex (mkVertex (fun s => String.append "#" s) [] [] "a" 0)).1.vertices
      = [mkVertex (fun s => String.append "#" s) [] [] "a" 0] := by
  refine ⟨?_, ?_⟩ <;> decide

/-- C8 (amended): `add_vertex` performs no non-emptiness validation of
the parent list: any batch whose digest is not already stored and whose
declared parent list is empty is admitted and stored. -/
theorem add_vertex_accepts_empty_parents (d : DAG) (v : Vertex)
    (hdup : ∀ w ∈ d.vertices, w.hash ≠ v.hash) (hpar : v.parentHashes = []) :
    (d.addVertex v).2 = true ∧ v ∈ (d.addVertex v).1.vertices := by
  have hany : d.vertices.any (fun w => w.hash == v.hash) = false := by
    rw [List.any_eq_false]
    intro w hw
    simpa using hdup w hw
  have hall : v.parentHashes.all
      (fun p => p == "genesis" || d.vertices.any (fun w => w.hash == p)) = true := by
    rw [hpar]
    rfl
  unfold DAG.addVertex
  rw [hany, hall]
  simp [DAG.storeVertex]

/-- Witness for C8: the empty DAG admits a concrete empty-parent
batch. -/
theorem add_vertex_accepts_empty_parents_witness :
    (DAG.empty.addVertex (mkVertex (fun s => s) [] [] "creator" 5)).2 = true ∧
    mkVertex (fun s => s) [] [] "creator" 5
      ∈ (DAG.empty.addVertex (mkVertex (fun s => s) [] [] "creator" 5)).1.vertices :=
  add_vertex_accepts_empty_parents DAG.empty (mkVertex (fun s => s) [] [] "creator" 5)
    (by simp [DAG.empty]) rfl

/-- C7: casting a vote for an already-finalized digest is a no-op: the
whole node state — finalized set, pending tallies and every account
balance — is unchanged. -/
theorem finalized_vote_is_noop (sign : String → String → String) (committee : List String)
    (ns : NodeState) (nodeId privateKey digest : String)
    (hf : digest ∈ ns.consensus.finalized) :
    nodeCastVote sign committee ns nodeId privateKey digest = ns ∧
    (nodeCastVote sign committee ns nodeId privateKey digest).consensus.finalized
      = ns.consensus.finalized ∧
    (nodeCastVote sign committee ns nodeId privateKey digest).consensus.pendingVotes
      = ns.consensus.pendingVotes ∧
    (∀ a, (nodeCastVote sign committee ns nodeId privateKey digest).ledger.balances a
      = ns.ledger.balances a) := by
  have hcv : castVote sign committee ns.consensus nodeId privateKey digest = ns.consensus := by
    unfold castVote
    by_cases hc : nodeId ∈ committee
    · simp [hc, hf]
    · simp [hc]
  have hns : nodeCastVote sign committee ns nodeId privateKey digest = ns := by
    unfold nodeCastVote
    rw [hcv]
  exact ⟨hns, by rw [hns], by rw [hns], fun a => by rw [hns]⟩

/-- Witness for C7: a vote on the already-finalized digest `"d"`
changes nothing. -/
theorem finalized_vote_is_noop_witness :
    nodeCastVote (fun _ m => m) ["a"]
      { ledger := LedgerState.init, consensus := { pendingVotes := [], finalized := {"d"} } }
      "a" "k" "d"
      = { ledger := LedgerState.init, consensus := { pendingVotes := [], finalized := {"d"} } } :=
  (finalized_vote_is_noop (fun _ m => m) ["a"]
    { ledger := LedgerState.init, consensus := { pendingVotes := [], finalized := {"d"} } }
    "a" "k" "d" (by decide)).1

/-! ## Association-list lemmas for the vote tallies -/

theorem find?_map_replace {α : Type} (l : List (String × α)) (k : String) (v : α)
    (h : l.any (fun e => e.1 == k) = true) :
    (l.map (fun e => if e.1 == k then (k, v) else e)).find? (fun e => e.1 == k)
      = some (k, v) := by
  induction l with
  | nil => simp at h
  | cons e rest ih =>
    by_cases he : e.1 = k
    · simp [List.find?_cons, he]
    · have h2 : rest.any (fun e => e.1 == k) = true := by
        simpa [he] using h
      simpa [List.find?_cons, he] using ih h2

theorem find?_append_fresh {α : Type} (l : List (String × α)) (k : String) (v : α)
    (h : l.any (fun e => e.1 == k) = false) :
    (l ++ [(k, v)]).find? (fun e => e.1 == k) = some (k, v) := by
  induction l with
  | nil => simp [List.find?_cons]
  | cons e rest ih =>
    have he : ¬ e.1 = k := by
      intro hk
      simp [hk] at h
    have h2 : rest.any (fun e => e.1 == k) = false := by
      simpa [he] using h
    simpa [List.find?_cons, he] using ih h2

theorem getVotes_setPending (pv : List (String × List (String × String))) (digest : String)
    (vs : List (String × String)) :
    getVotes (setPending pv digest vs) digest = vs := by
  unfold setPending getVotes
  by_cases h : pv.any (fun e => e.1 == digest) = true
  · rw [if_pos h, find?_map_replace pv digest vs h]
  · rw [if_neg h, find?_append_fresh pv digest vs (Bool.eq_false_iff.mpr h)]

theorem setVote_length_of_mem (votes : List (String × String)) (voter sig : String)
    (h : voter ∈ votes.map Prod.fst) :
    (setVote votes voter sig).length = votes.length := by
  have hany : votes.any (fun p => p.1 == voter) = true := by
    rcases List.mem_map.mp h with ⟨p, hp, hk⟩
    exact List.any_eq_true.mpr ⟨p, hp, by simp [hk]⟩
  unfold setVote
  rw [if_pos hany, List.length_map]

theorem setVote_length_of_not_mem (votes : List (String × String)) (voter sig : String)
    (h : voter ∉ votes.map Prod.fst) :
    (setVote votes voter sig).length = votes.length + 1 := by
  have hany : votes.any (fun p => p.1 == voter) = false := by
    rw [List.any_eq_false]
    intro p hp
    simp only [beq_iff_eq]
    intro hk
    exact h (List.mem_map.mpr ⟨p, hp, hk⟩)
  unfold setVote
  rw [if_neg (by simp [hany]), List.length_append]
  rfl

theorem setVote_find (votes : List (String × String)) (voter sig : String) :
    (setVote votes voter sig).find? (fun p => p.1 == voter) = some (voter, sig) := by
  unfold setVote
  by_cases h : votes.any (fun p => p.1 == voter) = true
  · rw [if_pos h]
    exact find?_map_replace votes voter sig h
  · rw [if_neg h]
    exact find?_append_fresh votes voter sig (Bool.eq_false_iff.mpr h)

/-- C1: for a committee of size N, one `cast_vote` step by a committee
member on a not-yet-finalized digest finalizes that digest exactly when
the number of distinct recorded voters reaches
`int(len(committee) * 2 / 3) + 1` (N read from the current committee at
the quorum check); one vote short never finalizes (the if-and-only-if),
and a repeated vote by an already-counted voter overwrites that voter's
signature without increasing the distinct-voter count. -/
theorem cast_vote_quorum_iff (sign : String → String → String) (committee : List String)
    (st : ConsensusState) (voter privateKey digest : String)
    (hc : voter ∈ committee) (hf : digest ∉ st.finalized) :
    (digest ∈ (castVote sign committee st voter privateKey digest).finalized ↔
      committee.length * 2 / 3 + 1 ≤
        (setVote (getVotes st.pendingVotes digest) voter (sign privateKey digest)).length) ∧
    (voter ∈ (getVotes st.pendingVotes digest).map Prod.fst →
      (setVote (getVotes st.pendingVotes digest) voter (sign privateKey digest)).length
        = (getVotes st.pendingVotes digest).length) ∧
    (voter ∉ (getVotes st.pendingVotes digest).map Prod.fst →
      (setVote (getVotes st.pendingVotes digest) voter (sign privateKey digest)).length
        = (getVotes st.pendingVotes digest).length + 1) ∧
    (setVote (getVotes st.pendingVotes digest) voter (sign privateKey digest)).find?
      (fun p => p.1 == voter) = some (voter, sign privateKey digest) := by
  refine ⟨?_, setVote_length_of_mem _ _ _, setVote_length_of_not_mem _ _ _,
    setVote_find _ _ _⟩
  set nv := setVote (getVotes st.pendingVotes digest) voter (sign privateKey digest) with hnv
  have h1 : castVote sign committee st voter privateKey digest
      = checkForFinality committee { st with pendingVotes := setPending st.pendingVotes digest nv } digest := by
    unfold castVote
    rw [if_pos hc, if_neg hf]
  rw [h1]
  unfold checkForFinality
  simp only [getVotes_setPending]
  split_ifs with hq
  · exact iff_of_true (Finset.mem_insert_self digest st.finalized) hq
  · exact iff_of_false hf hq

/-- Witness for C1: on a four-member committee with an empty tally, the
first vote gives one distinct voter, below the quorum of 3, and the
digest is accordingly not finalized. -/
theorem cast_vote_quorum_iff_witness :
    ("d" ∈ (castVote (fun _ m => m) ["a", "b", "c", "e"] ConsensusState.init
        "a" "k" "d").finalized ↔
      (["a", "b", "c", "e"] : List String).length * 2 / 3 + 1 ≤
        (setVote (getVotes ConsensusState.init.pendingVotes "d") "a"
          ((fun (_ m : String) => m) "k" "d")).length) :=
  (cast_vote_quorum_iff (fun _ m => m) ["a", "b", "c", "e"] ConsensusState.init
    "a" "k" "d" (by decide) (by decide)).1

/-! ## Conservation across a successful transfer plus fee distribution -/

theorem distributeFee_poolsTotal (st : LedgerState) (fb : FeeBreakdown) :
    (st.distributeFee fb).poolsTotal = st.poolsTotal + fb.total := by
  unfold LedgerState.distributeFee LedgerState.poolsTotal FeeBreakdown.total
  ring

theorem distributeFee_balances (st : LedgerState) (fb : FeeBreakdown) :
    (st.distributeFee fb).balances = st.balances := rfl

/-- C10 counterexample: the claim as stated fails for a transaction
with a negative fee, which `apply_transaction` accepts (the sufficiency
test passes) while `get_fee_breakdown` returns all-zero shares: the
sum of balances and pools grows by 1 instead of being conserved, and
the pools do not increase by the fee. -/
theorem fee_conservation_negative_fee_counterexample :
    (LedgerState.init.applyTransaction "s" "r" 0 (-1)).2 = true ∧
    (applyAndDistribute LedgerState.init "s" "r" 0 (-1)).balancesTotal {"s", "r"}
        + (applyAndDistribute LedgerState.init "s" "r" 0 (-1)).poolsTotal
      ≠ LedgerState.init.balancesTotal {"s", "r"} + LedgerState.init.poolsTotal ∧
    (applyAndDistribute LedgerState.init "s" "r" 0 (-1)).poolsTotal
      ≠ LedgerState.init.poolsTotal + (-1) := by
  refine ⟨?_, ?_, ?_⟩ <;> decide

/-- C10 (amended with `fee ≥ 0`): a successful `apply_transaction`
decreases the sum of the balances of any account set containing the
sender and the recipient by exactly the fee, the `distribute_fee` call
made for that transaction increases the sum of the four pools by
exactly the fee, and their grand total is conserved. -/
theorem fee_conservation_per_transaction (st : LedgerState) (sender recipient : String)
    (amount fee : Int) (S : Finset String) (hfee : 0 ≤ fee)
    (hs : sender ∈ S) (hr : recipient ∈ S)
    (hsucc : (st.applyTransaction sender recipient amount fee).2 = true) :
    (applyAndDistribute st sender recipient amount fee).balancesTotal S
      = st.balancesTotal S - fee ∧
    (applyAndDistribute st sender recipient amount fee).poolsTotal = st.poolsTotal + fee ∧
    (applyAndDistribute st sender recipient amount fee).balancesTotal S
        + (applyAndDistribute st sender recipient amount fee).poolsTotal
      = st.balancesTotal S + st.poolsTotal := by
  have hlt : ¬ st.balances sender < amount + fee :=
    (applyTransaction_success_iff st sender recipient amount fee).mp hsucc
  have happ := applyTransaction_of_sufficient st sender recipient amount fee hlt
  have had : applyAndDistribute st sender recipient amount fee
      = ((st.applyTransaction sender recipient amount fee).1).distributeFee
          (getFeeBreakdown fee) := by
    unfold applyAndDistribute
    rw [happ]
  have hbal : (st.applyTransaction sender recipient amount fee).1.balancesTotal S
      = st.balancesTotal S - fee := by
    rw [happ]
    unfold LedgerState.balancesTotal
    simp only []
    rw [sum_update_of_mem _ S recipient _ hr, sum_update_of_mem _ S sender _ hs]
    ring
  have hpool : (st.applyTransaction sender recipient amount fee).1.poolsTotal
      = st.poolsTotal := by
    rw [happ]
    rfl
  have h1 : (applyAndDistribute st sender recipient amount fee).balancesTotal S
      = st.balancesTotal S - fee := by
    rw [had]
    unfold LedgerState.balancesTotal
    rw [distributeFee_balances]
    exact hbal
  have h2 : (applyAndDistribute st sender recipient amount fee).poolsTotal
      = st.poolsTotal + fee := by
    rw [had, distributeFee_poolsTotal, hpool, getFeeBreakdown_total_of_nonneg fee hfee]
  exact ⟨h1, h2, by rw [h1, h2]; ring⟩

/-- Witness for C10: a transfer of 30 with fee 20 from a sender holding
50 conserves the grand total of balances and pools. -/
theorem fee_conservation_per_transaction_witness :
    (applyAndDistribute (LedgerState.init.credit "s" 50) "s" "r" 30 20).balancesTotal
        {"s", "r"}
        + (applyAndDistribute (LedgerState.init.credit "s" 50) "s" "r" 30 20).poolsTotal
      = (LedgerState.init.credit "s" 50).balancesTotal {"s", "r"}
        + (LedgerState.init.credit "s" 50).poolsTotal :=
  (fee_conservation_per_transaction (LedgerState.init.credit "s" 50) "s" "r" 30 20
    {"s", "r"} (by decide) (by decide) (by decide) (by decide)).2.2


/-! ## The tip invariant of the DAG store -/

theorem foldl_erase_eq_sdiff (l : List String) (t : Finset String) :
    l.foldl (fun s p => s.erase p) t = t \ l.toFinset := by
  induction l generalizing t with
  | nil => simp
  | cons a rest ih =>
    simp only [List.foldl_cons, List.toFinset_cons]
    rw [ih (t.erase a), Finset.erase_eq, sdiff_sdiff_left, Finset.insert_eq]
    rfl

/-- Tip invariant of the spec: the tip set is exactly the set of stored
digests not declared as a parent by any stored vertex. -/
def DAG.tipInvariant (d : DAG) : Prop :=
  d.tips = d.storedHashes \ d.declaredParents

/-- Structural invariant maintained by admission: every declared parent
of a stored vertex is the genesis sentinel or a stored digest. -/
def DAG.parentsResolved (d : DAG) : Prop :=
  ∀ w ∈ d.vertices, ∀ p ∈ w.parentHashes, p = "genesis" ∨ p ∈ d.storedHashes

theorem storeVertex_storedHashes (d : DAG) (v : Vertex) :
    (d.storeVertex v).storedHashes = d.storedHashes ∪ {v.hash} := by
  simp [DAG.storeVertex, DAG.storedHashes]

theorem storeVertex_declaredParents (d : DAG) (v : Vertex) :
    (d.storeVertex v).declaredParents = d.declaredParents ∪ v.parentHashes.toFinset := by
  simp [DAG.storeVertex, DAG.declaredParents]

theorem storeVertex_tips (d : DAG) (v : Vertex) :
    (d.storeVertex v).tips = insert v.hash (d.tips \ v.parentHashes.toFinset) := by
  simp [DAG.storeVertex, updateTips, foldl_erase_eq_sdiff]

theorem storeVertex_preserves_invariants (d : DAG) (v : Vertex) (hg : v.hash ≠ "genesis")
    (h1 : d.tipInvariant) (h2 : d.parentsResolved)
    (hvs : v.hash ∉ d.storedHashes)
    (hpar : ∀ p ∈ v.parentHashes, p = "genesis" ∨ p ∈ d.storedHashes) :
    (d.storeVertex v).tipInvariant ∧ (d.storeVertex v).parentsResolved := by
  have hvd : v.hash ∉ d.declaredParents := by
    intro hmem
    rcases List.mem_flatMap.mp (List.mem_toFinset.mp hmem) with ⟨w, hw, hwp⟩
    rcases h2 w hw v.hash hwp with hgen | hstored
    · exact hg hgen
    · exact hvs hstored
  have hvp : v.hash ∉ v.parentHashes.toFinset := by
    intro hmem
    rcases hpar v.hash (List.mem_toFinset.mp hmem) with hgen | hstored
    · exact hg hgen
    · exact hvs hstored
  constructor
  · unfold DAG.tipInvariant
    rw [storeVertex_storedHashes, storeVertex_declaredParents, storeVertex_tips, h1]
    ext x
    simp only [Finset.mem_insert, Finset.mem_sdiff, Finset.mem_union, Finset.mem_singleton,
      not_or]
    by_cases hx : x = v.hash
    · subst hx
      simp [hvd, hvp]
    · simp [hx]
      tauto
  · intro w hw p hpmem
    rw [storeVertex_storedHashes]
    have hw2 : w ∈ d.vertices ++ [v] := hw
    rcases List.mem_append.mp hw2 with hold | hnew
    · rcases h2 w hold p hpmem with hgen | hstored
      · exact Or.inl hgen
      · exact Or.inr (Finset.mem_union_left _ hstored)
    · have hwv : w = v := by simpa using hnew
      subst hwv
      rcases hpar p hpmem with hgen | hstored
      · exact Or.inl hgen
      · exact Or.inr (Finset.mem_union_left _ hstored)

theorem addVertex_preserves_invariants (d : DAG) (v : Vertex) (hg : v.hash ≠ "genesis")
    (h1 : d.tipInvariant) (h2 : d.parentsResolved) :
    (d.addVertex v).1.tipInvariant ∧ (d.addVertex v).1.parentsResolved := by
  unfold DAG.addVertex
  split_ifs with hd hp
  · exact ⟨h1, h2⟩
  · have hvs : v.hash ∉ d.storedHashes := by
      intro hmem
      rcases List.mem_map.mp (List.mem_toFinset.mp hmem) with ⟨w, hw, hwh⟩
      exact hd (List.any_eq_true.mpr ⟨w, hw, by simp [hwh]⟩)
    have hpar : ∀ p ∈ v.parentHashes, p = "genesis" ∨ p ∈ d.storedHashes := by
      intro p hpmem
      have hb := (List.all_eq_true.mp hp) p hpmem
      rcases Bool.or_eq_true_iff.mp hb with hgen | hstored
      · exact Or.inl (by simpa using hgen)
      · rcases List.any_eq_true.mp hstored with ⟨w, hw, hwh⟩
        exact Or.inr (List.mem_toFinset.mpr (List.mem_map.mpr ⟨w, hw, by simpa using hwh⟩))
    exact storeVertex_preserves_invariants d v hg h1 h2 hvs hpar
  · exact ⟨h1, h2⟩

theorem foldl_addVertex_invariants (l : List Vertex) (d : DAG)
    (hg : ∀ v ∈ l, v.hash ≠ "genesis") (h1 : d.tipInvariant) (h2 : d.parentsResolved) :
    (l.foldl (fun d v => (d.addVertex v).1) d).tipInvariant ∧
    (l.foldl (fun d v => (d.addVertex v).1) d).parentsResolved := by
  induction l generalizing d with
  | nil => exact ⟨h1, h2⟩
  | cons v rest ih =>
    have step := addVertex_preserves_invariants d v (hg v (List.mem_cons_self v rest)) h1 h2
    exact ih (d.addVertex v).1 (fun w hw => hg w (List.mem_cons_of_mem v hw)) step.1 step.2

/-- C6: after any sequence of batch admissions starting from the empty
DAG store, the tip set equals exactly the set of stored batch digests
that are not declared as a parent by any stored batch.  The hypothesis
that no submitted digest is the literal sentinel `genesis` always holds
in the program, where digests are 64-character SHA-256 hex strings;
failed admissions leave the store untouched, so the statement quantifies
over arbitrary admission sequences. -/
theorem dag_tips_equal_nonparent_stored (vs : List Vertex)
    (hg : ∀ v ∈ vs, v.hash ≠ "genesis") :
    (vs.foldl (fun d v => (d.addVertex v).1) DAG.empty).tips
      = (vs.foldl (fun d v => (d.addVertex v).1) DAG.empty).storedHashes
        \ (vs.foldl (fun d v => (d.addVertex v).1) DAG.empty).declaredParents := by
  have hbase1 : DAG.empty.tipInvariant := by
    unfold DAG.tipInvariant DAG.storedHashes DAG.declaredParents DAG.empty
    simp
  have hbase2 : DAG.empty.parentsResolved := by
    intro w hw
    simp [DAG.empty] at hw
  exact (foldl_addVertex_invariants vs DAG.empty hg hbase1 hbase2).1

/-- Concrete genesis-parented batch used by the C6 witness. -/
def tipWitnessV1 : Vertex :=
  { transactions := [], parentHashes := ["genesis"], creatorId := "a", timestamp := 0,
    signature := "", hash := "h1" }

/-- Concrete child batch of `tipWitnessV1` used by the C6 witness. -/
def tipWitnessV2 : Vertex :=
  { transactions := [], parentHashes := ["h1"], creatorId := "b", timestamp := 1,
    signature := "", hash := "h2" }

/-- Witness for C6: admitting a genesis-parented batch and then a child
of it leaves the tip set equal to the non-parent stored digests. -/
theorem dag_tips_equal_nonparent_stored_witness :
    (([tipWitnessV1, tipWitnessV2]).foldl (fun d v => (d.addVertex v).1) DAG.empty).tips
      = (([tipWitnessV1, tipWitnessV2]).foldl (fun d v => (d.addVertex v).1) DAG.empty).storedHashes
        \ (([tipWitnessV1, tipWitnessV2]).foldl (fun d v => (d.addVertex v).1) DAG.empty).declaredParents :=
  dag_tips_equal_nonparent_stored [tipWitnessV1, tipWitnessV2] (by decide)

/-! ## The reference end-to-end scenario (`simulation.py`) -/

/-- Deterministic stand-in for the SHA-256 hex digest used to run the
scenario concretely; every claim proved about the digest pipeline holds
uniformly in the hash primitive. -/
def scenarioHash : String → String := fun s => String.append "sha256#" s

/-- Deterministic stand-in for the post-quantum signing capability. -/
def scenarioSign : String → String → String := fun _ m => String.append "sig#" m

/-- Signature boundary of the scenario: every signature produced inside
the scenario verifies, as in the simulation where all transactions are
honestly signed. -/
def scenarioVerify : String → String → String → Bool := fun _ _ _ => true

/-- Scenario transaction 1: user A sends 100 with fee 10 to user B. -/
def scenarioTxA : Transaction :=
  { sender := "user_0", recipient := "user_1", amount := 100, fee := 10, id := "tx1",
    timestamp := 0, signature := "sigA" }

/-- Scenario transaction 2: user B sends 50 with fee 5 to user A. -/
def scenarioTxB : Transaction :=
  { sender := "user_1", recipient := "user_0", amount := 50, fee := 5, id := "tx2",
    timestamp := 0, signature := "sigB" }

/-- Scenario batch: both transactions in one genesis-parented vertex
created by validator 0, as in the simulation. -/
def scenarioVertex : Vertex :=
  mkVertex scenarioHash [scenarioTxA, scenarioTxB] ["genesis"] "validator_0" 0

/-- Scenario checkpoint: the super-vertex over the single-batch cohort,
proposed by validator 2. -/
def scenarioSV : SuperVertex :=
  mkSuperVertex scenarioHash [scenarioVertex.hash] "genesis_sv" "validator_2" 0

/-- Scenario DAG: the batch and the checkpoint admitted in order. -/
def scenarioDag : DAG :=
  ((DAG.empty.addVertex scenarioVertex).1.addSuperVertex scenarioSV).1

/-- The four-member committee of the scenario. -/
def scenarioCommittee : List String :=
  ["validator_0", "validator_1", "validator_2", "validator_3"]

/-- Consensus state after the leader's proposal (the first vote) and
two further votes: 3 of the 4 committee members have voted. -/
def scenarioConsensus : ConsensusState :=
  castVote scenarioSign scenarioCommittee
    (castVote scenarioSign scenarioCommittee
      (proposeSuperVertex scenarioSign scenarioCommittee ConsensusState.init
        "validator_2" "key2" scenarioSV)
      "validator_0" "key0" scenarioSV.hash)
    "validator_1" "key1" scenarioSV.hash

/-- Initial ledger of the scenario: users A and B credited 10000 each. -/
def scenarioLedger : LedgerState :=
  (LedgerState.init.credit "user_0" 10000).credit "user_1" 10000

/-- Known public keys of the scenario (both users registered). -/
def scenarioPeers : List (String × String) :=
  [("user_0", "pk_user_0"), ("user_1", "pk_user_1")]

/-- Ledger after processing the finalized checkpoint. -/
def scenarioFinal : LedgerState :=
  processFinalizedSuperVertex scenarioVerify scenarioPeers scenarioDag scenarioLedger scenarioSV

set_option maxRecDepth 16384 in
/-- C3 counterexample: in the reference scenario the validator pool
increment is 10, not the 9 the claim states.  Fees are distributed per
transaction (10 → 6/2/1/1 and 5 → 4/1/0/0 with the flooring remainder
going to the validator), so no split assigning 9 to the validator and
1 or 2 to gratitude can describe the outcome. -/
theorem scenario_validator_share_not_nine :
    scenarioFinal.validatorSharePool = 10 ∧ scenarioFinal.validatorSharePool ≠ 9 := by
  constructor <;> decide

set_option maxRecDepth 16384 in
/-- C3 (amended): in the reference scenario — 4 committee members,
users A and B each starting at balance 10000, A sends 100 with fee 10
to B, B sends 50 with fee 5 to A in one batch covered by a checkpoint
finalized with 3 of 4 votes — applying the finalized checkpoint yields
final balances A = 9940 and B = 10045, and the 15 collected fee units
are split 10 to the validator pool, 3 to UBI, 1 to carbon and 1 to
gratitude, the four pool increments summing to 15. -/
theorem scenario_checkpoint_outcome :
    scenarioSV.hash ∈ scenarioConsensus.finalized ∧
    scenarioFinal.balances "user_0" = 9940 ∧
    scenarioFinal.balances "user_1" = 10045 ∧
    scenarioFinal.validatorSharePool = 10 ∧
    scenarioFinal.ubiSharePool = 3 ∧
    scenarioFinal.carbonSharePool = 1 ∧
    scenarioFinal.gratitudeSharePool = 1 ∧
    scenarioFinal.poolsTotal = 15 := by
  refine ⟨?_, ?_, ?_, ?_, ?_, ?_, ?_, ?_⟩ <;> decide
